import Mathlib

/-!
Verification development for the echo web framework's routing core.

The development shallowly embeds the routing-related parts of the codebase:

* the per-request `Context` (path-parameter buffer, overrides, reset) from
  the context source file;
* `Echo.add` / `Echo.NewContext` (the maximum-parameter-count watermark and
  context pre-sizing) and `applyMiddleware` from `echo.go`;
* the route registry and matcher (`Router.Add` / `Resolve`), whose source
  file is not part of the snapshot and is therefore modelled from the
  specification document (tree of static / param / any segments, priority
  static > param > any, method-not-allowed aggregation, conflict errors);
* `Route.ToRouteInfo` (name derivation), also modelled from the
  specification and pinned by the expectations in `route_test.go`.

Go slices are modelled explicitly with a small heap of backing arrays so
that aliasing-sensitive statements (capacity retention on reset, fresh
copies returned by `Context.PathParams`) are expressible.
-/

/-- PathParam is one captured path parameter: a name/value pair.
Go: `type PathParam struct { Name, Value string }`. -/
structure PathParam where
  name : String
  value : String
deriving DecidableEq, Repr

/-- PathParams is an ordered sequence of captured parameters.
Go: `type PathParams []PathParam`. -/
abbrev PathParams := List PathParam

/-- Modelled from the spec: the `PathParams.Get` helper is not under the
source snapshot (only its callers in the context file are). Spec 4.3:
"`Get` performs a linear scan ... and returns the configured default when
absent". Go shape: iterate pairs, return `param.Value` on first
`param.Name == name`, else the default. -/
def PathParams.Get : PathParams → String → String → String
  | [], _, defaultValue => defaultValue
  | p :: rest, name, defaultValue =>
    if p.name == name then p.value else PathParams.Get rest name defaultValue

/-- Heap models the allocations backing Go slices: an append-only list of
backing arrays, indexed by allocation id. -/
structure Heap where
  arrays : List (List PathParam)
deriving DecidableEq, Repr

/-- Slice is a Go slice header: an allocation id and a logical length.
Capacity is the length of the backing array in the heap. -/
structure Slice where
  alloc : Nat
  len : Nat
deriving DecidableEq, Repr

/-- Heap.backing returns the backing array of a slice. -/
def Heap.backing (h : Heap) (s : Slice) : List PathParam :=
  h.arrays.getD s.alloc []

/-- Slice.cap is the capacity of the slice: the size of its backing array. -/
def Slice.cap (h : Heap) (s : Slice) : Nat :=
  (h.backing s).length

/-- Slice.view is the logical content of the slice: the first `len`
elements of its backing array. -/
def Slice.view (h : Heap) (s : Slice) : PathParams :=
  (h.backing s).take s.len

/-- Heap.allocSlice models `make(PathParams, n)`: a fresh backing array of
`n` zero-value elements, with length and capacity `n`. -/
def Heap.allocSlice (h : Heap) (n : Nat) : Heap × Slice :=
  ({ arrays := h.arrays ++ [List.replicate n ⟨"", ""⟩] },
   { alloc := h.arrays.length, len := n })

/-- writeFront overwrites the front of a backing array with new values,
keeping the tail. -/
def writeFront (orig newVals : List PathParam) : List PathParam :=
  newVals ++ orig.drop newVals.length

/-- Heap.copyInto models Go `copy(dst, src)`: copies
`min (len dst) (len src)` elements from the source view into the front of
the destination's backing array. -/
def Heap.copyInto (h : Heap) (dst src : Slice) : Heap :=
  let vals := (Slice.view h src).take (min dst.len src.len)
  { arrays := h.arrays.set dst.alloc (writeFront (h.backing dst) vals) }

/-- Heap.writeAt models an element assignment `s[i] = v` through a slice. -/
def Heap.writeAt (h : Heap) (s : Slice) (i : Nat) (v : PathParam) : Heap :=
  { arrays := h.arrays.set s.alloc ((h.arrays.getD s.alloc []).set i v) }

/-- RouteInfo is the externally visible descriptor of a registered route
(Go struct `routeInfo`: method, path, params, name). -/
structure RouteInfo where
  method : String
  path : String
  params : List String
  name : String
deriving DecidableEq, Repr

/-- Context models the per-request context of the context source file.
Fields `request`, `response`, `echo`, `logger` and `lock` (external
`net/http`, `log/slog` and `sync` values) are outside the embedding; the
fields the routing claims touch are kept: the route info, registered path,
the router-filled parameter buffer (`pathParams *PathParams`, a slice into
the heap), the `SetPathParams` override (`currentParams PathParams`,
nil-able), and the nil-able `query`/`store` caches. -/
structure Context where
  route : Option RouteInfo
  pathParams : Slice
  query : Option (List (String × String))
  store : Option (List (String × String))
  path : String
  currentParams : Option Slice
deriving DecidableEq, Repr

/-- Context.Reset models the routing-relevant part of `Context.Reset`:
`query`, `store`, `route` and `path` are cleared,
`*c.pathParams = (*c.pathParams)[:0]` truncates the parameter buffer to
logical length zero without touching the heap (the backing array is kept,
per the source NOTE that it must keep its allocated size), and
`currentParams` is cleared. The heap is threaded through unchanged because
the source performs no allocation or free here. -/
def Context.Reset (h : Heap) (c : Context) : Heap × Context :=
  (h, { c with
        query := none
        store := none
        route := none
        path := ""
        pathParams := { c.pathParams with len := 0 }
        currentParams := none })

/-- Context.PathParam models: if `currentParams` is non-nil read from it,
else read from the router-filled buffer, with empty-string default. -/
def Context.PathParam (h : Heap) (c : Context) (name : String) : String :=
  match c.currentParams with
  | some ps => PathParams.Get (Slice.view h ps) name ""
  | none => PathParams.Get (Slice.view h c.pathParams) name ""

/-- Context.PathParamDefault models
`return c.pathParams.Get(name, defaultValue)`: it always reads the
router-filled buffer. -/
def Context.PathParamDefault (h : Heap) (c : Context) (name defaultValue : String) : String :=
  PathParams.Get (Slice.view h c.pathParams) name defaultValue

/-- Context.PathParams models the accessor: if `currentParams` is non-nil
return it as-is; otherwise allocate a fresh slice of the buffer's length
and copy the buffer into it (`make` + `copy`), returning the copy. -/
def Context.PathParams (h : Heap) (c : Context) : Heap × Slice :=
  match c.currentParams with
  | some ps => (h, ps)
  | none =>
    let hs := h.allocSlice c.pathParams.len
    (Heap.copyInto hs.1 hs.2 c.pathParams, hs.2)

/-- Context.SetPathParams installs the override slice for this request. -/
def Context.SetPathParams (c : Context) (params : Slice) : Context :=
  { c with currentParams := some params }

/-- Segment is one parsed pattern segment. Modelled from the spec:
literal segment; `:name` named parameter; `*` or `*name` catch-all. -/
inductive Segment where
  | static (lit : String)
  | param (name : String)
  | anySeg (name : String)
deriving DecidableEq, Repr

/-- splitOnSlashAux splits a character list at every slash, accumulating
the current segment in reverse. -/
def splitOnSlashAux : List Char → List Char → List String
  | [], acc => [String.mk acc.reverse]
  | c :: cs, acc =>
    if c = '/' then String.mk acc.reverse :: splitOnSlashAux cs []
    else splitOnSlashAux cs (c :: acc)

/-- splitPath splits a path into its slash-separated segments, dropping
the empty segment produced by a leading slash. -/
def splitPath (p : String) : List String :=
  match splitOnSlashAux p.data [] with
  | "" :: rest => rest
  | l => l

/-- joinSlash joins segments back with slashes, used for the remainder
captured by a catch-all segment. -/
def joinSlash : List String → String
  | [] => ""
  | [s] => s
  | s :: rest => s ++ "/" ++ joinSlash rest

/-- Modelled from the spec: pattern-segment parsing of the missing
registry source. A segment beginning with a colon declares a named
parameter; a segment beginning with a star declares a catch-all bound to
the given name, or to the default name `*` when unnamed; anything else is
a literal. -/
def parseSegment (s : String) : Segment :=
  match s.data with
  | ':' :: rest => .param (String.mk rest)
  | '*' :: rest => .anySeg (if rest = [] then "*" else String.mk rest)
  | _ => .static s

/-- parsePattern splits and parses a route path pattern. -/
def parsePattern (p : String) : List Segment :=
  (splitPath p).map parseSegment

/-- paramNames lists the parameter names of a pattern in path order. -/
def paramNames (segs : List Segment) : List String :=
  segs.filterMap fun
    | .static _ => none
    | .param n => some n
    | .anySeg n => some n

/-- MethodEntry is one terminal handler entry of a tree node: method name,
handler reference (abstracted to an id), ordered route-level middleware
ids, and route name. -/
structure MethodEntry where
  method : String
  handler : Nat
  middlewares : List Nat
  name : String
deriving DecidableEq, Repr

/-- RNode is a trie vertex, modelled from the spec: a method table of
terminal entries, statically-labelled children (at most one per literal,
kept in insertion order), at most one param child (with its parameter
name), and at most one catch-all child, which is always terminal and
therefore carries only a parameter name and a method table. -/
inductive RNode : Type where
  | mk : List MethodEntry → List (String × RNode) → Option (String × RNode) →
      Option (String × List MethodEntry) → RNode
deriving Repr

/-- RNode.entries is the method table of the node. -/
def RNode.entries : RNode → List MethodEntry
  | .mk es _ _ _ => es

/-- RNode.statics is the list of static children with their literals. -/
def RNode.statics : RNode → List (String × RNode)
  | .mk _ ss _ _ => ss

/-- RNode.paramChild is the optional param child with its parameter name. -/
def RNode.paramChild : RNode → Option (String × RNode)
  | .mk _ _ pc _ => pc

/-- RNode.anyChild is the optional catch-all child: parameter name and
method table. -/
def RNode.anyChild : RNode → Option (String × List MethodEntry)
  | .mk _ _ _ ac => ac

/-- RNode.empty is a node with no entries and no children. -/
def RNode.empty : RNode := .mk [] [] none none

/-- findStaticChild returns the static child registered under a literal. -/
def findStaticChild : List (String × RNode) → String → Option RNode
  | [], _ => none
  | (k, v) :: xs, lit => if k == lit then some v else findStaticChild xs lit

/-- replaceStaticChild replaces the first static child registered under
the literal. -/
def replaceStaticChild : List (String × RNode) → String → RNode → List (String × RNode)
  | [], _, _ => []
  | (k, v) :: xs, lit, c =>
    if k == lit then (k, c) :: xs else (k, v) :: replaceStaticChild xs lit c

/-- ConflictError enumerates the registration-time conflicts of the spec:
duplicate method+path, incompatible parameter naming at the same tree
position, and incompatible wildcard placement. -/
inductive ConflictError where
  | duplicateMethodPath
  | paramNameConflict
  | anyNameConflict
  | anyNotLast
deriving DecidableEq, Repr

/-- Modelled from the spec: the registry insertion of the missing router
source. Walks/extends the tree segment by segment, creating nodes lazily;
fails with a conflict when the exact method+path is already terminally
registered, when a param segment meets a different parameter name at the
same position, or when a catch-all segment is misplaced or renamed. -/
def insertGo : List Segment → RNode → MethodEntry → Except ConflictError RNode
  | [], .mk es ss pc ac, e =>
    match es.find? (fun x => x.method == e.method) with
    | some _ => .error .duplicateMethodPath
    | none => .ok (.mk (es ++ [e]) ss pc ac)
  | .static lit :: rest, .mk es ss pc ac, e =>
    match findStaticChild ss lit with
    | some child =>
      match insertGo rest child e with
      | .ok c' => .ok (.mk es (replaceStaticChild ss lit c') pc ac)
      | .error er => .error er
    | none =>
      match insertGo rest RNode.empty e with
      | .ok c' => .ok (.mk es (ss ++ [(lit, c')]) pc ac)
      | .error er => .error er
  | .param name :: rest, .mk es ss pc ac, e =>
    match pc with
    | some (pname, child) =>
      if pname = name then
        match insertGo rest child e with
        | .ok c' => .ok (.mk es ss (some (name, c')) ac)
        | .error er => .error er
      else .error .paramNameConflict
    | none =>
      match insertGo rest RNode.empty e with
      | .ok c' => .ok (.mk es ss (some (name, c')) ac)
      | .error er => .error er
  | .anySeg name :: rest, .mk es ss pc ac, e =>
    if rest = [] then
      match ac with
      | some (aname, aentries) =>
        if aname = name then
          match aentries.find? (fun x => x.method == e.method) with
          | some _ => .error .duplicateMethodPath
          | none => .ok (.mk es ss pc (some (name, aentries ++ [e])))
        else .error .anyNameConflict
      | none => .ok (.mk es ss pc (some (name, [e])))
    else .error .anyNotLast

/-- MatchResult is the three-way result of the matcher, per the spec:
a matched handler chain with captured parameters, method-not-allowed with
the allowed methods, or not-found. -/
inductive MatchResult where
  | matched (handler : Nat) (middlewares : List Nat) (name : String)
      (params : PathParams) : MatchResult
  | methodNotAllowed (allowed : List String) : MatchResult
  | notFound : MatchResult
deriving DecidableEq, Repr

/-- resolveAny is the catch-all step of the matcher: a catch-all child is
always a terminal match for its method table, capturing the remainder of
the path; with no entry for the method it reports the registered methods. -/
def resolveAny (ac : Option (String × List MethodEntry)) (method : String)
    (capture : String) (acc : PathParams) : MatchResult :=
  match ac with
  | some (aname, aentries) =>
    match aentries.find? (fun x => x.method == method) with
    | some e => .matched e.handler e.middlewares e.name (acc ++ [⟨aname, capture⟩])
    | none =>
      if aentries.isEmpty then .notFound
      else .methodNotAllowed (aentries.map (fun x => x.method))
  | none => .notFound

/-- resolveTerminal is the fully-consumed-path step of the matcher: match
the node's method table, report method-not-allowed when other methods are
registered here, and otherwise let a catch-all child capture the empty
remainder. -/
def resolveTerminal (es : List MethodEntry) (ac : Option (String × List MethodEntry))
    (method : String) (acc : PathParams) : MatchResult :=
  match es.find? (fun x => x.method == method) with
  | some e => .matched e.handler e.middlewares e.name acc
  | none =>
    if es.isEmpty then resolveAny ac method "" acc
    else .methodNotAllowed (es.map (fun x => x.method))

/-- Modelled from the spec: the matcher of the missing router source.
Depth-first descent, segment by segment: first the static child matching
the next segment, then the param child (capturing the segment), then the
catch-all child (capturing the remainder); a non-not-found result
propagates up immediately; priority static > param > any. -/
def resolveGo : List String → RNode → String → PathParams → MatchResult
  | [], .mk es _ _ ac, method, acc => resolveTerminal es ac method acc
  | s :: rest, .mk _ ss pc ac, method, acc =>
    match (match findStaticChild ss s with
           | some child => resolveGo rest child method acc
           | none => .notFound : MatchResult) with
    | .notFound =>
      match (match pc with
             | some (pname, child) => resolveGo rest child method (acc ++ [⟨pname, s⟩])
             | none => .notFound : MatchResult) with
      | .notFound => resolveAny ac method (joinSlash (s :: rest)) acc
      | r => r
    | r => r

/-- walkStatic follows static children along the given literals. -/
def walkStatic : List String → RNode → Option RNode
  | [], t => some t
  | s :: rest, t =>
    match findStaticChild t.statics s with
    | some child => walkStatic rest child
    | none => none

/-- Route is the registration request: method, path pattern, handler id,
route-level middleware ids, and optional name. -/
structure Route where
  method : String
  path : String
  handler : Nat
  middlewares : List Nat
  name : String
deriving DecidableEq, Repr

/-- Modelled from the spec: `Route.ToRouteInfo` of the missing route
source (its test is in the snapshot). Route names are optional; when
absent, the name is derived deterministically as METHOD:path-pattern. -/
def Route.ToRouteInfo (r : Route) (params : List String) : RouteInfo :=
  { method := r.method
    path := r.path
    params := params
    name := if r.name = "" then r.method ++ ":" ++ r.path else r.name }

/-- Router holds the segment tree. -/
structure Router where
  tree : RNode

/-- Router.empty is a router with an empty tree. -/
def Router.empty : Router := ⟨RNode.empty⟩

/-- Router.AddMut models the mutating registration call: on success the
tree is replaced and the immutable route info (with parameter names in
path order) is returned; on a conflict the error is returned and the tree
is left as it was. -/
def Router.AddMut (r : Router) (route : Route) : Router × Except ConflictError RouteInfo :=
  let segs := parsePattern route.path
  let ri := route.ToRouteInfo (paramNames segs)
  let e : MethodEntry :=
    { method := route.method
      handler := route.handler
      middlewares := route.middlewares
      name := ri.name }
  match insertGo segs r.tree e with
  | .ok t' => (⟨t'⟩, .ok ri)
  | .error er => (r, .error er)

/-- addRoute registers a route and keeps only the resulting router. -/
def addRoute (r : Router) (route : Route) : Router :=
  (Router.AddMut r route).1

/-- Router.Resolve matches a request method and path against the tree. -/
def Router.Resolve (r : Router) (method path : String) : MatchResult :=
  resolveGo (splitPath path) r.tree method []

/-- EchoModel is the routing-relevant state of the `Echo` struct: the
router and the process-wide maximum-parameter-count watermark
`contextPathParamAllocSize` (an `atomic.Int32` in the source; registration
is single-threaded and parameter counts are small non-negative numbers,
so it is embedded as a natural number). -/
structure EchoModel where
  router : Router
  contextPathParamAllocSize : Nat

/-- Echo.add models `Echo.add` of `echo.go` (with the optional
`OnAddRoute` hook at its nil default): register with the router, and on
success raise the watermark when this route's parameter count exceeds it. -/
def Echo.add (e : EchoModel) (route : Route) : EchoModel × Except ConflictError RouteInfo :=
  match Router.AddMut e.router route with
  | (r', .ok ri) =>
    let paramsCount := ri.params.length
    if paramsCount > e.contextPathParamAllocSize then
      ({ router := r', contextPathParamAllocSize := paramsCount }, .ok ri)
    else
      ({ e with router := r' }, .ok ri)
  | (r', .error er) => ({ e with router := r' }, .error er)

/-- Echo.NewContext models `Echo.NewContext` of `echo.go`: the parameter
buffer is pre-allocated with `make` to the current watermark. -/
def Echo.NewContext (h : Heap) (e : EchoModel) : Heap × Context :=
  let hs := h.allocSlice e.contextPathParamAllocSize
  (hs.1, { route := none
           pathParams := hs.2
           query := none
           store := none
           path := ""
           currentParams := none })

/-- applyMiddleware models `applyMiddleware` of `echo.go`: iterate the
middleware slice from the last index down to 0, each time replacing the
handler by the middleware applied to it. The handler and middleware types
are kept abstract (`HandlerFunc` and `MiddlewareFunc` are Go function
types). -/
def applyMiddleware {H : Type} (h : H) (middleware : List (H → H)) : H :=
  middleware.reverse.foldl (fun h' m => m h') h

/-! Concrete example values, used to evaluate the theorems on the
spec's worked examples. -/

/-- routePostUsers is the registration request POST /users. -/
def routePostUsers : Route := ⟨"POST", "/users", 7, [], ""⟩

/-- postUsersNode is the terminal node holding the POST /users entry. -/
def postUsersNode : RNode := .mk [⟨"POST", 7, [], "POST:/users"⟩] [] none none

/-- postUsersTree is the tree with only POST /users registered. -/
def postUsersTree : RNode := .mk [] [("users", postUsersNode)] none none

/-- riPostUsers is the route info produced for POST /users. -/
def riPostUsers : RouteInfo := ⟨"POST", "/users", [], "POST:/users"⟩

/-- routeUserId is the registration request GET /users/:id. -/
def routeUserId : Route := ⟨"GET", "/users/:id", 1, [], ""⟩

/-- riUserId is the route info produced for GET /users/:id. -/
def riUserId : RouteInfo := ⟨"GET", "/users/:id", ["id"], "GET:/users/:id"⟩

/-- userIdTree is the tree with only GET /users/:id registered. -/
def userIdTree : RNode :=
  .mk [] [("users", .mk [] [] (some ("id", .mk [⟨"GET", 1, [], "GET:/users/:id"⟩] [] none none)) none)]
    none none

/-- echoAfterUserId is the echo state after registering GET /users/:id. -/
def echoAfterUserId : EchoModel := ⟨⟨userIdTree⟩, 1⟩

/-- newUsersNode is the terminal node of the static route GET /users/new. -/
def newUsersNode : RNode := .mk [⟨"GET", 1, [], "GET:/users/new"⟩] [] none none

/-- idParamNode is the terminal node of the param route GET /users/:id. -/
def idParamNode : RNode := .mk [⟨"GET", 2, [], "GET:/users/:id"⟩] [] none none

/-- mixedNode has a static child and a param child competing for the same
position. -/
def mixedNode : RNode := .mk [] [("new", newUsersNode)] (some ("id", idParamNode)) none

/-- paramAnyNode has a param child and a catch-all child competing for the
same position. -/
def paramAnyNode : RNode :=
  .mk [] [] (some ("id", idParamNode)) (some ("f", [⟨"GET", 3, [], "GET:any"⟩]))

/-- exampleHeap holds one backing array with one captured parameter. -/
def exampleHeap : Heap := ⟨[[⟨"id", "42"⟩]]⟩

/-- exampleCtx is a context whose buffer is the first heap allocation. -/
def exampleCtx : Context := ⟨none, ⟨0, 1⟩, none, none, "", none⟩

/-! Helper lemmas. -/

theorem getD_concat_self {α : Type} (l : List α) (x d : α) :
    (l ++ [x]).getD l.length d = x := by
  induction l with
  | nil => rfl
  | cons a l _ => simp [List.getD]

theorem getD_append_lt {α : Type} (l l' : List α) (n : Nat) (d : α) (h : n < l.length) :
    (l ++ l').getD n d = l.getD n d := by
  induction l generalizing n with
  | nil => simp at h
  | cons a l ih =>
    cases n with
    | zero => rfl
    | succ n => simpa [List.getD] using ih n (by simpa using h)

theorem getD_set_self {α : Type} (l : List α) (n : Nat) (x d : α) (h : n < l.length) :
    (l.set n x).getD n d = x := by
  induction l generalizing n with
  | nil => simp at h
  | cons a l ih =>
    cases n with
    | zero => rfl
    | succ n => simpa [List.getD] using ih n (by simpa using h)

theorem getD_set_ne {α : Type} (l : List α) (n m : Nat) (x d : α) (h : n ≠ m) :
    (l.set n x).getD m d = l.getD m d := by
  induction l generalizing n m with
  | nil => rfl
  | cons a l ih =>
    cases n with
    | zero =>
      cases m with
      | zero => exact absurd rfl h
      | succ m => rfl
    | succ n =>
      cases m with
      | zero => rfl
      | succ m => simpa [List.getD] using ih n m (by omega)

theorem pathParams_get_eq_find (ps : PathParams) (name d : String) :
    PathParams.Get ps name d =
      match ps.find? (fun p => p.name == name) with
      | some p => p.value
      | none => d := by
  induction ps with
  | nil => rfl
  | cons p rest ih =>
    by_cases hp : p.name == name
    · simp [PathParams.Get, List.find?, hp]
    · simp only [Bool.not_eq_true] at hp
      simp [PathParams.Get, List.find?, hp, ih]

theorem find?_concat_isSome {α : Type} (l : List α) (x : α) (p : α → Bool)
    (hp : p x = true) : ((l ++ [x]).find? p).isSome = true := by
  induction l with
  | nil => simp [List.find?, hp]
  | cons a l ih =>
    by_cases ha : p a
    · simp [List.find?, ha]
    · simp only [Bool.not_eq_true] at ha
      simp only [List.cons_append, List.find?, ha]
      exact ih

theorem findStaticChild_replace (ss : List (String × RNode)) (lit : String)
    (c child : RNode) (h : findStaticChild ss lit = some child) :
    findStaticChild (replaceStaticChild ss lit c) lit = some c := by
  induction ss with
  | nil => simp [findStaticChild] at h
  | cons kv ss ih =>
    by_cases hk : kv.1 == lit
    · cases kv with
      | mk k v => simp_all [findStaticChild, replaceStaticChild]
    · cases kv with
      | mk k v =>
        simp only [Bool.not_eq_true] at hk
        simp_all [findStaticChild, replaceStaticChild]

theorem findStaticChild_concat (ss : List (String × RNode)) (lit : String)
    (c : RNode) (h : findStaticChild ss lit = none) :
    findStaticChild (ss ++ [(lit, c)]) lit = some c := by
  induction ss with
  | nil => simp [findStaticChild]
  | cons kv ss ih =>
    cases kv with
    | mk k v =>
      by_cases hk : k == lit
      · simp [findStaticChild, hk] at h
      · simp only [Bool.not_eq_true] at hk
        simp only [findStaticChild, hk] at h ⊢
        simp [ih h]

theorem insertGo_dup (segs : List Segment) (t t' : RNode) (e e' : MethodEntry)
    (hm : e'.method = e.method) (h : insertGo segs t e = .ok t') :
    insertGo segs t' e' = .error .duplicateMethodPath := by
  induction segs generalizing t t' with
  | nil =>
    cases t with
    | mk es ss pc ac =>
      simp only [insertGo] at h
      cases hf : es.find? (fun x => x.method == e.method) with
      | some _ => simp [hf] at h
      | none =>
        simp only [hf] at h
        cases h
        simp only [insertGo]
        have : ((es ++ [e]).find? (fun x => x.method == e'.method)).isSome = true :=
          find?_concat_isSome es e _ (by simp [hm])
        cases hg : (es ++ [e]).find? (fun x => x.method == e'.method) with
        | none => simp [hg] at this
        | some _ => simp [hg]
  | cons seg rest ih =>
    cases t with
    | mk es ss pc ac =>
      cases seg with
      | static lit =>
        simp only [insertGo] at h
        cases hf : findStaticChild ss lit with
        | some child =>
          simp only [hf] at h
          cases hc : insertGo rest child e with
          | ok c' =>
            simp only [hc] at h
            cases h
            simp only [insertGo, findStaticChild_replace ss lit c' child hf,
              ih child c' hc]
          | error er => simp [hc] at h
        | none =>
          simp only [hf] at h
          cases hc : insertGo rest RNode.empty e with
          | ok c' =>
            simp only [hc] at h
            cases h
            simp only [insertGo, findStaticChild_concat ss lit c' hf,
              ih RNode.empty c' hc]
          | error er => simp [hc] at h
      | param name =>
        simp only [insertGo] at h
        cases hf : pc with
        | some pnc =>
          cases pnc with
          | mk pname child =>
            simp only [hf] at h
            by_cases hn : pname = name
            · simp only [hn, if_pos rfl] at h
              cases hc : insertGo rest child e with
              | ok c' =>
                simp only [hc] at h
                cases h
                simp [insertGo, ih child c' hc]
              | error er => simp [hc] at h
            · simp [hn] at h
        | none =>
          simp only [hf] at h
          cases hc : insertGo rest RNode.empty e with
          | ok c' =>
            simp only [hc] at h
            cases h
            simp [insertGo, ih RNode.empty c' hc]
          | error er => simp [hc] at h
      | anySeg name =>
        simp only [insertGo] at h
        by_cases hrest : rest = []
        · simp only [hrest, if_pos rfl] at h
          cases hf : ac with
          | some ana =>
            cases ana with
            | mk aname aentries =>
              simp only [hf] at h
              by_cases hn : aname = name
              · simp only [hn, if_pos rfl] at h
                cases hg : aentries.find? (fun x => x.method == e.method) with
                | some _ => simp [hg] at h
                | none =>
                  simp only [hg] at h
                  cases h
                  simp only [hrest, insertGo, if_pos rfl]
                  have : ((aentries ++ [e]).find? (fun x => x.method == e'.method)).isSome
                      = true := find?_concat_isSome aentries e _ (by simp [hm])
                  cases hg2 : (aentries ++ [e]).find? (fun x => x.method == e'.method) with
                  | none => simp [hg2] at this
                  | some _ => simp [hg2]
              · simp [hn] at h
          | none =>
            simp only [hf] at h
            cases h
            simp only [hrest, insertGo, if_pos rfl]
            have : (([e] : List MethodEntry).find? (fun x => x.method == e'.method)).isSome
                = true := by simp [List.find?, hm]
            cases hg2 : ([e] : List MethodEntry).find? (fun x => x.method == e'.method) with
            | none => simp [hg2] at this
            | some _ => simp [hg2]
        · simp [hrest] at h

theorem resolveGo_walkStatic_mna (segs : List String) (t n : RNode) (m : String)
    (acc : PathParams) (hwalk : walkStatic segs t = some n)
    (hne : n.entries ≠ []) (hnf : n.entries.find? (fun e => e.method == m) = none) :
    resolveGo segs t m acc = .methodNotAllowed (n.entries.map (fun e => e.method)) := by
  induction segs generalizing t acc with
  | nil =>
    simp only [walkStatic, Option.some.injEq] at hwalk
    subst hwalk
    cases t with
    | mk es ss pc ac =>
      simp only [RNode.entries] at hne hnf
      simp [resolveGo, resolveTerminal, hnf, hne, RNode.entries]
  | cons s rest ih =>
    cases t with
    | mk es ss pc ac =>
      simp only [walkStatic, RNode.statics] at hwalk
      cases hf : findStaticChild ss s with
      | none => simp [hf] at hwalk
      | some child =>
        simp only [hf] at hwalk
        simp [resolveGo, hf, ih child acc hwalk]

theorem resolveAny_not_notFound (ac : Option (String × List MethodEntry))
    (m m' cap cap' : String) (acc acc' : PathParams) (hd : Nat) (mw : List Nat)
    (nm : String) (ps : PathParams)
    (h : resolveAny ac m' cap acc = .matched hd mw nm ps) :
    resolveAny ac m cap' acc' ≠ .notFound := by
  cases ac with
  | none => simp [resolveAny] at h
  | some ana =>
    cases ana with
    | mk aname aentries =>
      simp only [resolveAny] at h ⊢
      cases hg : aentries.find? (fun x => x.method == m') with
      | none =>
        simp only [hg] at h
        cases he : aentries.isEmpty <;> simp [he] at h
      | some e =>
        have hne : aentries.isEmpty = false := by
          cases aentries with
          | nil => simp [List.find?] at hg
          | cons a l => rfl
        cases hg2 : aentries.find? (fun x => x.method == m) with
        | some e2 => simp [hg2]
        | none => simp [hg2, hne]

theorem resolveTerminal_not_notFound (es : List MethodEntry)
    (ac : Option (String × List MethodEntry)) (m m' : String) (acc acc' : PathParams)
    (hd : Nat) (mw : List Nat) (nm : String) (ps : PathParams)
    (h : resolveTerminal es ac m' acc = .matched hd mw nm ps) :
    resolveTerminal es ac m acc' ≠ .notFound := by
  simp only [resolveTerminal] at h ⊢
  cases hg : es.find? (fun x => x.method == m') with
  | some e =>
    have hne : es.isEmpty = false := by
      cases es with
      | nil => simp [List.find?] at hg
      | cons a l => rfl
    cases hg2 : es.find? (fun x => x.method == m) with
    | some e2 => simp [hg2]
    | none => simp [hg2, hne]
  | none =>
    simp only [hg] at h
    cases he : es.isEmpty with
    | false => simp [he] at h
    | true =>
      have hes : es = [] := by cases es with | nil => rfl | cons a l => simp at he
      subst hes
      simp only [List.find?, List.isEmpty_nil, if_true] at h ⊢
      exact resolveAny_not_notFound ac m m' "" "" acc acc' hd mw nm ps h

theorem resolveGo_not_notFound (segs : List String) (t : RNode) (m m' : String)
    (acc acc' : PathParams) (hd : Nat) (mw : List Nat) (nm : String) (ps : PathParams)
    (h : resolveGo segs t m' acc = .matched hd mw nm ps) :
    resolveGo segs t m acc' ≠ .notFound := by
  induction segs generalizing t acc acc' hd mw nm ps with
  | nil =>
    cases t with
    | mk es ss pc ac =>
      simp only [resolveGo] at h ⊢
      exact resolveTerminal_not_notFound es ac m m' acc acc' hd mw nm ps h
  | cons s rest ih =>
    cases t with
    | mk es ss pc ac =>
      simp only [resolveGo] at h ⊢
      cases hf : findStaticChild ss s with
      | some child =>
        simp only [hf] at h ⊢
        cases hr' : resolveGo rest child m' acc with
        | matched hd2 mw2 nm2 ps2 =>
          have hstat := ih child acc acc' hd2 mw2 nm2 ps2 hr'
          cases hr : resolveGo rest child m acc' with
          | matched a b c d => simp [hr]
          | methodNotAllowed l => simp [hr]
          | notFound => exact absurd hr hstat
        | methodNotAllowed l => simp [hr'] at h
        | notFound =>
          simp only [hr'] at h
          cases hp : pc with
          | some pnc =>
            cases pnc with
            | mk pname pchild =>
              simp only [hp] at h ⊢
              cases hr2' : resolveGo rest pchild m' (acc ++ [⟨pname, s⟩]) with
              | matched hd2 mw2 nm2 ps2 =>
                have hpar := ih pchild (acc ++ [⟨pname, s⟩]) (acc' ++ [⟨pname, s⟩])
                  hd2 mw2 nm2 ps2 hr2'
                cases hr : resolveGo rest child m acc' with
                | matched a b c d => simp [hr]
                | methodNotAllowed l => simp [hr]
                | notFound =>
                  simp only [hr]
                  cases hr2 : resolveGo rest pchild m (acc' ++ [⟨pname, s⟩]) with
                  | matched a b c d => simp [hr2]
                  | methodNotAllowed l => simp [hr2]
                  | notFound => exact absurd hr2 hpar
              | methodNotAllowed l => simp [hr2'] at h
              | notFound =>
                simp only [hr2'] at h
                have hany := resolveAny_not_notFound ac m m' (joinSlash (s :: rest))
                  (joinSlash (s :: rest)) acc acc' hd mw nm ps h
                cases hr : resolveGo rest child m acc' with
                | matched a b c d => simp [hr]
                | methodNotAllowed l => simp [hr]
                | notFound =>
                  simp only [hr]
                  cases hr2 : resolveGo rest pchild m (acc' ++ [⟨pname, s⟩]) with
                  | matched a b c d => simp [hr2]
                  | methodNotAllowed l => simp [hr2]
                  | notFound => simpa using hany
          | none =>
            simp only [hp] at h ⊢
            have hany := resolveAny_not_notFound ac m m' (joinSlash (s :: rest))
              (joinSlash (s :: rest)) acc acc' hd mw nm ps h
            cases hr : resolveGo rest child m acc' with
            | matched a b c d => simp [hr]
            | methodNotAllowed l => simp [hr]
            | notFound => simpa [hr] using hany
      | none =>
        simp only [hf] at h ⊢
        cases hp : pc with
        | some pnc =>
          cases pnc with
          | mk pname pchild =>
            simp only [hp] at h ⊢
            cases hr2' : resolveGo rest pchild m' (acc ++ [⟨pname, s⟩]) with
            | matched hd2 mw2 nm2 ps2 =>
              have hpar := ih pchild (acc ++ [⟨pname, s⟩]) (acc' ++ [⟨pname, s⟩])
                hd2 mw2 nm2 ps2 hr2'
              cases hr2 : resolveGo rest pchild m (acc' ++ [⟨pname, s⟩]) with
              | matched a b c d => simp [hr2]
              | methodNotAllowed l => simp [hr2]
              | notFound => exact absurd hr2 hpar
            | methodNotAllowed l => simp [hr2'] at h
            | notFound =>
              simp only [hr2'] at h
              have hany := resolveAny_not_notFound ac m m' (joinSlash (s :: rest))
                (joinSlash (s :: rest)) acc acc' hd mw nm ps h
              cases hr2 : resolveGo rest pchild m (acc' ++ [⟨pname, s⟩]) with
              | matched a b c d => simp [hr2]
              | methodNotAllowed l => simp [hr2]
              | notFound => simpa using hany
        | none =>
          simp only [hp] at h ⊢
          exact resolveAny_not_notFound ac m m' (joinSlash (s :: rest))
            (joinSlash (s :: rest)) acc acc' hd mw nm ps h


/-! Claim theorems. -/

/-- C1: at every tree node the matcher prefers children in the order
static > param > any: whenever a matching static child resolves the rest
of the path to anything but NotFound, that result is the node's result
(the param and catch-all children are not consulted); whenever the static
attempt fails and the param child resolves to anything but NotFound, that
result is the node's result (the catch-all child is not consulted); and
consequently, with both GET /users/new and GET /users/:id registered (in
either order), Resolve(GET, "/users/new") returns the static route's
handler with no captured parameter, not the param route with id="new". -/
theorem static_over_param_priority :
    (∀ (t child : RNode) (s : String) (rest : List String) (m : String)
        (acc : PathParams),
        findStaticChild t.statics s = some child →
        resolveGo rest child m acc ≠ .notFound →
        resolveGo (s :: rest) t m acc = resolveGo rest child m acc) ∧
    (∀ (t pchild : RNode) (pname s : String) (rest : List String) (m : String)
        (acc : PathParams),
        t.paramChild = some (pname, pchild) →
        (findStaticChild t.statics s = none ∨
          ∃ child, findStaticChild t.statics s = some child ∧
            resolveGo rest child m acc = .notFound) →
        resolveGo rest pchild m (acc ++ [⟨pname, s⟩]) ≠ .notFound →
        resolveGo (s :: rest) t m acc
          = resolveGo rest pchild m (acc ++ [⟨pname, s⟩])) ∧
    (∀ (h1 h2 : Nat),
        Router.Resolve
            (addRoute (addRoute Router.empty (Route.mk "GET" "/users/new" h1 [] ""))
              (Route.mk "GET" "/users/:id" h2 [] ""))
            "GET" "/users/new"
          = .matched h1 [] "GET:/users/new" [] ∧
        Router.Resolve
            (addRoute (addRoute Router.empty (Route.mk "GET" "/users/:id" h2 [] ""))
              (Route.mk "GET" "/users/new" h1 [] ""))
            "GET" "/users/new"
          = .matched h1 [] "GET:/users/new" []) := by
  refine ⟨?_, ?_, fun h1 h2 => ⟨rfl, rfl⟩⟩
  · intro t child s rest m acc hf hne
    cases t with
    | mk es ss pc ac =>
      simp only [RNode.statics] at hf
      simp only [resolveGo, hf]
  · intro t pchild pname s rest m acc hp hstat hne
    cases t with
    | mk es ss pc ac =>
      simp only [RNode.paramChild] at hp
      simp only [RNode.statics] at hstat
      subst hp
      rcases hstat with hnone | ⟨child, hf, hnf⟩
      · simp only [resolveGo, hnone]
      · simp only [resolveGo, hf, hnf]

/-- C1 witness: on a node with both a static child "new" and a param
child :id, the segment "new" resolves through the static child; on a node
with both a param child :id and a catch-all child, the segment "42"
resolves through the param child; and on the two-route table the static
route's handler wins. -/
theorem static_over_param_priority_witness :
    resolveGo ["new"] mixedNode "GET" [] = resolveGo [] newUsersNode "GET" [] ∧
    resolveGo ["42"] paramAnyNode "GET" []
      = resolveGo [] idParamNode "GET" [⟨"id", "42"⟩] ∧
    Router.Resolve
        (addRoute (addRoute Router.empty (Route.mk "GET" "/users/new" 1 [] ""))
          (Route.mk "GET" "/users/:id" 2 [] ""))
        "GET" "/users/new"
      = .matched 1 [] "GET:/users/new" [] := by
  have H := static_over_param_priority
  refine ⟨?_, ?_, ?_⟩
  · exact H.1 mixedNode newUsersNode "new" [] "GET" [] rfl (by decide)
  · exact H.2.1 paramAnyNode idParamNode "id" "42" [] "GET" [] rfl (Or.inl rfl)
      (by decide)
  · exact (H.2.2 1 2).1

/-- C2: when the static walk of the request path reaches a node with a
non-empty method table lacking the requested method, Resolve returns
MethodNotAllowed with exactly that node's registered methods (in
registration order); and in general, whenever a path is matched for some
method, Resolve never answers NotFound for that path with any other
method. -/
theorem method_mismatch_yields_method_not_allowed :
    (∀ (t n : RNode) (m p : String),
        walkStatic (splitPath p) t = some n →
        n.entries ≠ [] →
        n.entries.find? (fun e => e.method == m) = none →
        Router.Resolve ⟨t⟩ m p = .methodNotAllowed (n.entries.map (fun e => e.method))) ∧
    (∀ (t : RNode) (m m' p : String) (hd : Nat) (mw : List Nat) (nm : String)
        (ps : PathParams),
        Router.Resolve ⟨t⟩ m' p = .matched hd mw nm ps →
        Router.Resolve ⟨t⟩ m p ≠ .notFound) := by
  constructor
  · intro t n m p hwalk hne hnf
    exact resolveGo_walkStatic_mna (splitPath p) t n m [] hwalk hne hnf
  · intro t m m' p hd mw nm ps h
    exact resolveGo_not_notFound (splitPath p) t m m' [] [] hd mw nm ps h

/-- C2 witness: with only POST /users registered, Resolve(GET, "/users")
is MethodNotAllowed(["POST"]) and is not NotFound. -/
theorem method_mismatch_yields_method_not_allowed_witness :
    Router.Resolve ⟨postUsersTree⟩ "GET" "/users" = .methodNotAllowed ["POST"] ∧
    Router.Resolve ⟨postUsersTree⟩ "GET" "/users" ≠ .notFound := by
  constructor
  · exact method_mismatch_yields_method_not_allowed.1 postUsersTree postUsersNode
      "GET" "/users" rfl (by decide) rfl
  · exact method_mismatch_yields_method_not_allowed.2 postUsersTree "GET" "POST"
      "/users" 7 [] "POST:/users" [] rfl

/-- C4: a second registration of the identical (method, path, handler)
returns a ConflictError (duplicate method+path) and leaves the route tree
exactly as it was after the first, successful registration. -/
theorem duplicate_registration_conflict_atomic (r r' : Router) (route : Route)
    (ri : RouteInfo) (hadd : Router.AddMut r route = (r', .ok ri)) :
    Router.AddMut r' route = (r', .error .duplicateMethodPath) := by
  simp only [Router.AddMut] at hadd ⊢
  cases hins : insertGo (parsePattern route.path) r.tree
      { method := route.method, handler := route.handler,
        middlewares := route.middlewares,
        name := (route.ToRouteInfo (paramNames (parsePattern route.path))).name } with
  | error er => simp [hins] at hadd
  | ok t' =>
    simp only [hins] at hadd
    have hr' : r' = ⟨t'⟩ := by
      cases hadd
      rfl
    subst hr'
    simp [insertGo_dup (parsePattern route.path) r.tree t' _ _ rfl hins]

/-- C4 witness: registering POST /users on the empty router succeeds, and
repeating the identical registration yields the duplicate conflict with
the tree unchanged. -/
theorem duplicate_registration_conflict_atomic_witness :
    Router.AddMut ⟨postUsersTree⟩ routePostUsers
      = (⟨postUsersTree⟩, .error .duplicateMethodPath) :=
  duplicate_registration_conflict_atomic Router.empty ⟨postUsersTree⟩ routePostUsers
    riPostUsers rfl

/-- C5: Context.Reset leaves the heap untouched, truncates the parameter
buffer to logical length zero, and keeps the same backing allocation with
unchanged capacity. -/
theorem reset_truncates_param_buffer_keeps_capacity (h : Heap) (c : Context) :
    (Context.Reset h c).1 = h ∧
    (Context.Reset h c).2.pathParams.len = 0 ∧
    (Context.Reset h c).2.pathParams.alloc = c.pathParams.alloc ∧
    Slice.cap (Context.Reset h c).1 (Context.Reset h c).2.pathParams
      = Slice.cap h c.pathParams :=
  ⟨rfl, rfl, rfl, rfl⟩

/-- C6: Context.PathParamDefault returns the value of the first buffered
pair whose name matches, and the provided default when no pair matches. -/
theorem path_param_default_first_match_or_default (h : Heap) (c : Context)
    (name d : String) :
    Context.PathParamDefault h c name d =
      match (Slice.view h c.pathParams).find? (fun p => p.name == name) with
      | some p => p.value
      | none => d :=
  pathParams_get_eq_find (Slice.view h c.pathParams) name d

/-- C7: the RouteInfo produced by a successful registration carries the
registration name when one was given, and otherwise the name derived as
METHOD:path-pattern. -/
theorem route_info_name_derivation (r r' : Router) (route : Route) (ri : RouteInfo)
    (hadd : Router.AddMut r route = (r', .ok ri)) :
    ri.name = if route.name = "" then route.method ++ ":" ++ route.path
              else route.name := by
  simp only [Router.AddMut] at hadd
  cases hins : insertGo (parsePattern route.path) r.tree
      { method := route.method, handler := route.handler,
        middlewares := route.middlewares,
        name := (route.ToRouteInfo (paramNames (parsePattern route.path))).name } with
  | error er => simp [hins] at hadd
  | ok t' =>
    simp only [hins] at hadd
    cases hadd
    rfl

/-- C7 witness: registering GET users/:id/:file with an empty name derives
the name GET:users/:id/:file (the expectation of the registration test). -/
theorem route_info_name_derivation_witness :
    (RouteInfo.mk "GET" "users/:id/:file" ["id", "file"] "GET:users/:id/:file").name
      = if ("" : String) = "" then "GET" ++ ":" ++ "users/:id/:file" else "" :=
  route_info_name_derivation Router.empty
    (Router.AddMut Router.empty (Route.mk "GET" "users/:id/:file" 1 [] "")).1
    (Route.mk "GET" "users/:id/:file" 1 [] "")
    (RouteInfo.mk "GET" "users/:id/:file" ["id", "file"] "GET:users/:id/:file") rfl

/-- C8: for a fixed route table, Resolve is a pure function of
(method, path): invocations with equal arguments return equal results. -/
theorem resolve_deterministic (r : Router) (m p m' p' : String)
    (hm : m = m') (hp : p = p') :
    Router.Resolve r m p = Router.Resolve r m' p' := by
  subst hm
  subst hp
  rfl

/-- C8 witness: two invocations with identical arguments on a concrete
table agree. -/
theorem resolve_deterministic_witness :
    Router.Resolve ⟨postUsersTree⟩ "GET" "/users"
      = Router.Resolve ⟨postUsersTree⟩ "GET" "/users" :=
  resolve_deterministic ⟨postUsersTree⟩ "GET" "/users" "GET" "/users" rfl rfl

/-- C9: applyMiddleware on the empty middleware list is the identity, and
on m1 :: ms it wraps the handler so that the first-listed middleware is
outermost: the result is m1 applied to the wrapping of the rest. -/
theorem apply_middleware_wrap_order {H : Type} (h : H) :
    applyMiddleware h ([] : List (H → H)) = h ∧
    ∀ (m1 : H → H) (ms : List (H → H)),
      applyMiddleware h (m1 :: ms) = m1 (applyMiddleware h ms) := by
  refine ⟨rfl, ?_⟩
  intro m1 ms
  simp [applyMiddleware, List.foldl_append]

/-- C3: a successful registration raises the maximum-parameter-count
watermark to the maximum of its previous value and the new route's
parameter count (so it never shrinks), and a context created afterwards
pre-sizes its parameter buffer (length and capacity) to the watermark. -/
theorem watermark_monotone_max (h : Heap) (e e' : EchoModel) (route : Route)
    (ri : RouteInfo) (hadd : Echo.add e route = (e', .ok ri)) :
    e'.contextPathParamAllocSize
      = max e.contextPathParamAllocSize ri.params.length ∧
    e.contextPathParamAllocSize ≤ e'.contextPathParamAllocSize ∧
    (Echo.NewContext h e').2.pathParams.len = e'.contextPathParamAllocSize ∧
    Slice.cap (Echo.NewContext h e').1 (Echo.NewContext h e').2.pathParams
      = e'.contextPathParamAllocSize := by
  have hlen : (Echo.NewContext h e').2.pathParams.len
      = e'.contextPathParamAllocSize := by
    simp [Echo.NewContext, Heap.allocSlice]
  have hcap : Slice.cap (Echo.NewContext h e').1 (Echo.NewContext h e').2.pathParams
      = e'.contextPathParamAllocSize := by
    simp [Echo.NewContext, Heap.allocSlice, Slice.cap, Heap.backing, getD_concat_self]
  simp only [Echo.add] at hadd
  cases hA : Router.AddMut e.router route with
  | mk r' res =>
    cases res with
    | error er => simp [hA] at hadd
    | ok ri0 =>
      simp only [hA] at hadd
      by_cases hgt : ri0.params.length > e.contextPathParamAllocSize
      · rw [if_pos hgt] at hadd
        obtain ⟨he', hri⟩ := Prod.mk.injEq .. ▸ hadd
        cases hri
        refine ⟨?_, ?_, hlen, hcap⟩
        · rw [← he']
          show ri.params.length = max e.contextPathParamAllocSize ri.params.length
          omega
        · rw [← he']
          show e.contextPathParamAllocSize ≤ ri.params.length
          omega
      · rw [if_neg hgt] at hadd
        obtain ⟨he', hri⟩ := Prod.mk.injEq .. ▸ hadd
        cases hri
        refine ⟨?_, ?_, hlen, hcap⟩
        · rw [← he']
          show e.contextPathParamAllocSize
            = max e.contextPathParamAllocSize ri.params.length
          simp only [not_lt] at hgt
          omega
        · rw [← he']

/-- C3 witness: registering GET /users/:id (one parameter) on a fresh
state raises the watermark from 0 to 1 and new contexts allocate a
one-slot buffer. -/
theorem watermark_monotone_max_witness :
    echoAfterUserId.contextPathParamAllocSize = max 0 riUserId.params.length ∧
    0 ≤ echoAfterUserId.contextPathParamAllocSize ∧
    (Echo.NewContext ⟨[]⟩ echoAfterUserId).2.pathParams.len
      = echoAfterUserId.contextPathParamAllocSize ∧
    Slice.cap (Echo.NewContext ⟨[]⟩ echoAfterUserId).1
        (Echo.NewContext ⟨[]⟩ echoAfterUserId).2.pathParams
      = echoAfterUserId.contextPathParamAllocSize :=
  watermark_monotone_max ⟨[]⟩ ⟨Router.empty, 0⟩ echoAfterUserId routeUserId riUserId rfl

/-- C10: after SetPathParams installs an override, PathParam and
PathParams read exclusively from the override; without an override they
read from the router-filled buffer, and PathParams returns a freshly
allocated copy whose view equals the buffer's and whose mutation leaves
the buffer untouched. -/
theorem path_param_override_and_copy (h : Heap) (c : Context) (ps : Slice)
    (name : String) (hover : c.currentParams = none)
    (hvalid : c.pathParams.alloc < h.arrays.length)
    (hlen : c.pathParams.len ≤ Slice.cap h c.pathParams) :
    Context.PathParam h (c.SetPathParams ps) name
        = PathParams.Get (Slice.view h ps) name "" ∧
    Context.PathParams h (c.SetPathParams ps) = (h, ps) ∧
    Context.PathParam h c name
        = PathParams.Get (Slice.view h c.pathParams) name "" ∧
    (Context.PathParams h c).2.alloc ≠ c.pathParams.alloc ∧
    Slice.view (Context.PathParams h c).1 (Context.PathParams h c).2
        = Slice.view h c.pathParams ∧
    ∀ (i : Nat) (v : PathParam),
      Slice.view (Heap.writeAt (Context.PathParams h c).1 (Context.PathParams h c).2 i v)
          c.pathParams
        = Slice.view h c.pathParams := by
  have hbacking1 :
      (h.arrays ++ [List.replicate c.pathParams.len (⟨"", ""⟩ : PathParam)]).getD
          c.pathParams.alloc []
        = h.arrays.getD c.pathParams.alloc [] :=
    getD_append_lt _ _ _ _ hvalid
  have hvlen : (Slice.view h c.pathParams).length = c.pathParams.len := by
    simp only [Slice.cap, Heap.backing] at hlen
    simp only [Slice.view, Heap.backing, List.length_take]
    omega
  have hvals : (Slice.view h c.pathParams).take c.pathParams.len
      = Slice.view h c.pathParams :=
    List.take_of_length_le (le_of_eq hvlen)
  have hrep :
      (h.arrays ++ [List.replicate c.pathParams.len (⟨"", ""⟩ : PathParam)]).getD
          h.arrays.length []
        = List.replicate c.pathParams.len ⟨"", ""⟩ :=
    getD_concat_self _ _ _
  have hview1 :
      Slice.view ⟨h.arrays ++ [List.replicate c.pathParams.len (⟨"", ""⟩ : PathParam)]⟩
          c.pathParams
        = Slice.view h c.pathParams := by
    simp only [Slice.view, Heap.backing]
    rw [hbacking1]
  have hwf : writeFront (List.replicate c.pathParams.len (⟨"", ""⟩ : PathParam))
      (Slice.view h c.pathParams) = Slice.view h c.pathParams := by
    simp [writeFront, hvlen]
  have hPP : Context.PathParams h c
      = (⟨(h.arrays ++ [List.replicate c.pathParams.len (⟨"", ""⟩ : PathParam)]).set
            h.arrays.length (Slice.view h c.pathParams)⟩,
         ⟨h.arrays.length, c.pathParams.len⟩) := by
    simp only [Context.PathParams, hover, Heap.allocSlice, Heap.copyInto, min_self]
    congr 2
    rw [hview1, hvals]
    simp only [Heap.backing]
    rw [hrep, hwf]
  have hNlt : h.arrays.length
      < (h.arrays ++ [List.replicate c.pathParams.len (⟨"", ""⟩ : PathParam)]).length := by
    simp
  refine ⟨?_, ?_, ?_, ?_, ?_, ?_⟩
  · simp [Context.PathParam, Context.SetPathParams]
  · simp [Context.PathParams, Context.SetPathParams]
  · simp [Context.PathParam, hover]
  · rw [hPP]
    show h.arrays.length ≠ c.pathParams.alloc
    omega
  · rw [hPP]
    simp only [Slice.view, Heap.backing]
    rw [getD_set_self _ _ _ _ hNlt]
    exact hvals
  · intro i v
    rw [hPP]
    simp only [Heap.writeAt, Slice.view, Heap.backing]
    rw [getD_set_ne _ _ _ _ _ (by omega : h.arrays.length ≠ c.pathParams.alloc),
        getD_set_ne _ _ _ _ _ (by omega : h.arrays.length ≠ c.pathParams.alloc),
        hbacking1]

/-- C10 witness: on a concrete context whose one-slot buffer holds
id=42, the override and copy behaviors hold, instantiating the mutation
clause at index 0. -/
theorem path_param_override_and_copy_witness :
    Context.PathParam exampleHeap (exampleCtx.SetPathParams ⟨0, 1⟩) "id"
        = PathParams.Get (Slice.view exampleHeap ⟨0, 1⟩) "id" "" ∧
    Context.PathParams exampleHeap (exampleCtx.SetPathParams ⟨0, 1⟩)
        = (exampleHeap, ⟨0, 1⟩) ∧
    Context.PathParam exampleHeap exampleCtx "id"
        = PathParams.Get (Slice.view exampleHeap exampleCtx.pathParams) "id" "" ∧
    (Context.PathParams exampleHeap exampleCtx).2.alloc
        ≠ exampleCtx.pathParams.alloc ∧
    Slice.view (Context.PathParams exampleHeap exampleCtx).1
        (Context.PathParams exampleHeap exampleCtx).2
      = Slice.view exampleHeap exampleCtx.pathParams ∧
    Slice.view
        (Heap.writeAt (Context.PathParams exampleHeap exampleCtx).1
          (Context.PathParams exampleHeap exampleCtx).2 0 ⟨"x", "y"⟩)
        exampleCtx.pathParams
      = Slice.view exampleHeap exampleCtx.pathParams := by
  have H := path_param_override_and_copy exampleHeap exampleCtx ⟨0, 1⟩ "id" rfl
    (by decide) (by decide)
  exact ⟨H.1, H.2.1, H.2.2.1, H.2.2.2.1, H.2.2.2.2.1, H.2.2.2.2.2 0 ⟨"x", "y"⟩⟩
